import Mathlib

/-!
Verification of the get-out Slack-to-Google-Docs exporter.

This file gives a shallow embedding of the parts of the source that the
checked claims talk about:

* pkg/exporter/index.go       (export index, tsToDate, Save, LookupDocURL)
* pkg/exporter/docwriter.go   (GroupMessagesByDate, SortedDates,
                               FilterMainMessages, GetThreadParents,
                               WriteMessages)
* pkg/exporter/structure.go   (sanitizeFolderName, ConversationFolderName,
                               EnsureThreadFolder naming, truncate,
                               EnsureConversationFolder, EnsureDailyDoc)
* pkg/gdrive/folder.go        (FindOrCreateFolder)
* gdrive docs client          (FindOrCreateDocument, BatchAppendMessages,
                               utf16Len)
* slackapi client             (429 handling in request, GetAllMessages
                               pagination loop)
* the export orchestrator     (ExportConversation)

Remote services (Slack, Google Drive) are modelled as explicit state or
oracles; machine integers are Nat/Int (the Go code never overflows on the
inputs considered); Go maps that the code iterates in sorted order are
modelled as association lists plus an explicit sort.
-/

namespace GetOut

/-! ## Messages (slackapi.Message, the fields the exporter uses) -/

/-- A Slack message, restricted to the fields the export pipeline reads. -/
structure Msg where
  ts : String
  user : String
  text : String
  threadTS : String := ""
  replyCount : Nat := 0
  deriving Repr, DecidableEq, Inhabited

/-! ## String comparison

Go compares strings byte-lexicographically; this is the order sort.Slice
and sort.Strings use on timestamps and date keys.  The comparison is
defined here on the character lists (for the ASCII strings the exporter
compares, byte order and character order agree), as an executable Bool
function that the kernel can evaluate. -/

/-- Lexicographic strict order on character lists. -/
def ltChars : List Char → List Char → Bool
  | [], [] => false
  | [], _ :: _ => true
  | _ :: _, [] => false
  | a :: as, b :: bs =>
    if a.toNat < b.toNat then true
    else if b.toNat < a.toNat then false
    else ltChars as bs

/-- Go string less-than. -/
def strLt (a b : String) : Bool := ltChars a.data b.data

/-- Go string less-or-equal (total order: not greater). -/
def strLe (a b : String) : Bool := !(strLt b a)

/-! ## Timestamp parsing and date keys (index.go tsToDate)

The Go code parses the seconds part of a Slack timestamp by iterating over
the bytes before the first dot and accumulating sec*10 + (byte - '0'); the
byte subtraction wraps modulo 256.  It then calls time.Unix(sec, 0), which
yields a time in the MACHINE LOCAL ZONE, and formats it as yyyy-mm-dd.  We
model the local zone as a fixed UTC offset in seconds passed explicitly, and
the calendar conversion with the standard civil-from-days algorithm, which
agrees with Go's time package on the Unix-epoch-based range. -/

/-- Seconds part of a Slack ts, as parsed by the loop in tsToDate:
accumulate decimal digits until the first dot.  (The Go loop runs over
bytes; for the ASCII timestamp strings involved, chars and bytes agree, and
the wrap-around of the byte subtraction is kept.) -/
def tsSeconds (ts : String) : Nat :=
  go ts.data 0
where
  go : List Char → Nat → Nat
    | [], acc => acc
    | c :: rest, acc =>
      if c = '.' then acc
      else go rest (acc * 10 + (c.toNat + 208) % 256)

/-- Days-to-civil-date conversion (proleptic Gregorian), as used by Go's
time package internally: given days since 1970-01-01, return (year, month,
day). -/
def civilFromDays (z0 : Int) : Int × Nat × Nat :=
  let z : Int := z0 + 719468
  let era : Int := (if 0 ≤ z then z else z - 146096) / 146097
  let doe : Nat := (z - era * 146097).toNat
  let yoe : Nat := (doe - doe / 1460 + doe / 36524 - doe / 146096) / 365
  let y : Int := (yoe : Int) + era * 400
  let doy : Nat := doe - (365 * yoe + yoe / 4 - yoe / 100)
  let mp : Nat := (5 * doy + 2) / 153
  let d : Nat := doy - (153 * mp + 2) / 5 + 1
  let m : Nat := if mp < 10 then mp + 3 else mp - 9
  (if m ≤ 2 then y + 1 else y, m, d)

/-- The decimal digit character for a value below ten (larger values are
clamped; callers only pass reduced values). -/
def digitChar (n : Nat) : Char :=
  match n with
  | 0 => '0' | 1 => '1' | 2 => '2' | 3 => '3' | 4 => '4'
  | 5 => '5' | 6 => '6' | 7 => '7' | 8 => '8' | _ => '9'

/-- Decimal digits of a natural number, with explicit fuel (the fuel n + 1
always suffices since the value shrinks every step). -/
def natDigitsAux : Nat → Nat → List Char
  | 0, _ => []
  | fuel + 1, n =>
    if n < 10 then [digitChar n]
    else natDigitsAux fuel (n / 10) ++ [digitChar (n % 10)]

/-- Decimal rendering of a natural number. -/
def natString (n : Nat) : String :=
  String.mk (natDigitsAux (n + 1) n)

/-- Zero-pad a natural number to two digits (Go layout 01, 02). -/
def pad2 (n : Nat) : String :=
  if n < 10 then "0" ++ natString n else natString n

/-- Zero-pad a year to four digits (Go layout 2006; years handled by the
exporter lie in 1970..9999). -/
def pad4 (y : Int) : String :=
  let s := natString y.toNat
  if s.length < 4 then String.mk (List.replicate (4 - s.length) '0') ++ s else s

/-- Format a civil date as yyyy-mm-dd, as Go's Format("2006-01-02"). -/
def formatYMD : Int × Nat × Nat → String
  | (y, m, d) => pad4 y ++ "-" ++ pad2 m ++ "-" ++ pad2 d

/-- index.go tsToDate: seconds part of the ts, interpreted via
time.Unix(sec, 0) in the machine local zone (modelled as the fixed offset
tz, in seconds, of that zone), formatted yyyy-mm-dd.  With tz = 0 this is
the UTC calendar day. -/
def tsToDate (tz : Int) (ts : String) : String :=
  formatYMD (civilFromDays ((Int.ofNat (tsSeconds ts) + tz).fdiv 86400))

/-- structure.go DateFromTS simply forwards to tsToDate. -/
def DateFromTS (tz : Int) (ts : String) : String := tsToDate tz ts

example : tsSeconds "1706745603.000100" = 1706745603 := by decide
example : tsToDate 0 "1706745603.000100" = "2024-02-01" := by decide
example : tsToDate (-7200) "1706745603.000100" = "2024-01-31" := by decide

/-! ## Index persistence (index.go Save)

ExportIndex.Save serialises the index and calls os.WriteFile(idx.path,
data, 0644) on the FINAL path.  os.WriteFile opens the target with
O_WRONLY|O_CREATE|O_TRUNC — truncating the existing file in place — and
then writes the bytes.  We model the persistence step as the sequence of
primitive file operations it performs, so that aborting after any prefix of
the sequence gives the on-disk content at that point.  The serialised JSON
is abstracted as the byte string `data`. -/

/-- A primitive file operation performed by Save's os.WriteFile call. -/
inductive FileOp
  | truncate
  | writeChar (c : Char)
  deriving Repr, DecidableEq

/-- The operation sequence of index.go Save on the index file: open with
O_TRUNC (truncating), then write the serialised bytes in order.  There is
no temp file and no rename. -/
def saveOps (data : String) : List FileOp :=
  FileOp.truncate :: data.data.map FileOp.writeChar

/-- Effect of one file operation on the on-disk content. -/
def applyFileOp (content : String) : FileOp → String
  | FileOp.truncate => ""
  | FileOp.writeChar c => content.push c

/-- On-disk content after running a list of file operations. -/
def runFileOps (content : String) (ops : List FileOp) : String :=
  ops.foldl applyFileOp content

/-- On-disk index content when Save is aborted after the first n primitive
operations, starting from pre-write content pre. -/
def saveAborted (pre data : String) (n : Nat) : String :=
  runFileOps pre ((saveOps data).take n)

/-- The persistence step modelled from the spec: temp-file-and-rename.  The
temp file absorbs all partial writes; the target changes only at the final
atomic rename, so an abort leaves either pre or data.  (This is what the
legacy util.Checkpoint.Save does, but not what ExportIndex.Save does.) -/
def atomicSaveAborted (pre data : String) (n : Nat) : String :=
  if n < (saveOps data).length + 1 then pre else data

/-! ## Slack 429 backoff (slackapi request and GetAllMessages)

request models: on HTTP 429 the client reads the Retry-After header,
defaults to 1 second when the header is absent or does not parse, and
returns a RateLimitError carrying that duration.  GetAllMessages sleeps
for exactly that duration and retries with the SAME cursor.  There is no
upper bound applied to the duration. -/

/-- Decimal digit run to a value; none when empty or a non-digit occurs
(strconv.Atoi rejects such inputs). -/
def digitsVal : List Char → Option Nat
  | [] => none
  | l => go l 0
where
  go : List Char → Nat → Option Nat
    | [], acc => some acc
    | c :: rest, acc =>
      if c.isDigit then go rest (acc * 10 + (c.toNat - 48)) else none

/-- strconv.Atoi: optional sign then digits.  (Overflow of int64 cannot
occur for the header values considered.) -/
def atoi (s : String) : Option Int :=
  match s.data with
  | '+' :: rest => (digitsVal rest).map Int.ofNat
  | '-' :: rest => (digitsVal rest).map (fun n => -(Int.ofNat n))
  | l => (digitsVal l).map Int.ofNat

/-- Seconds the client will wait after a 429, per slackapi request: start
from 1 second; if the Retry-After header is present ("" models an absent
header) and Atoi parses it, use the parsed value — with no cap. -/
def retryAfterSeconds (header : String) : Int :=
  if header = "" then 1
  else
    match atoi header with
    | some n => n
    | none => 1

example : retryAfterSeconds "" = 1 := by decide
example : retryAfterSeconds "2" = 2 := by decide
example : retryAfterSeconds "abc" = 1 := by decide
example : retryAfterSeconds "3600" = 3600 := by decide

/-- One Slack response as seen by the GetAllMessages loop: either an HTTP
429 carrying the Retry-After header value ("" for absent), or a successful
history page. -/
inductive SlackResp
  | rateLimited (retryAfter : String)
  | page (msgs : List Msg) (hasMore : Bool) (nextCursor : String)
  deriving Repr

/-- Observable behaviour of one run of the GetAllMessages pagination loop:
the cursor sent with each request, the sleeps performed, and the message
batches passed to the callback. -/
structure FetchLog where
  requests : List String
  waits : List Int
  batches : List (List Msg)
  deriving Repr

/-- The GetAllMessages loop of the slackapi client, driven by an oracle
script of responses (one per request issued).  On a RateLimitError it
sleeps retryAfterSeconds and loops WITHOUT touching opts.Cursor; on a page
it passes a non-empty batch to the callback and advances the cursor only
when has_more is set and the next cursor is non-empty.  An exhausted script
ends the run (the model's stand-in for the process stopping). -/
def getAllMessagesLoop : List SlackResp → String → FetchLog → FetchLog
  | [], _, log => log
  | SlackResp.rateLimited ra :: rest, cursor, log =>
    getAllMessagesLoop rest cursor
      { log with requests := log.requests ++ [cursor],
                 waits := log.waits ++ [retryAfterSeconds ra] }
  | SlackResp.page msgs hasMore next :: rest, cursor, log =>
    let log :=
      { log with requests := log.requests ++ [cursor],
                 batches := log.batches ++ (if msgs.isEmpty then [] else [msgs]) }
    if hasMore && next ≠ "" then getAllMessagesLoop rest next log else log

/-- The cursor attached to each request the loop issues, computed directly
from the response script. -/
def cursorsOf : List SlackResp → String → List String
  | [], _ => []
  | SlackResp.rateLimited _ :: rest, c => c :: cursorsOf rest c
  | SlackResp.page _ hasMore next :: rest, c =>
    c :: (if hasMore && next ≠ "" then cursorsOf rest next else [])

/-- The sleeps the loop performs, computed directly from the script: one
per 429, of exactly retryAfterSeconds of its header, in order.  Pages after
a terminal page are never requested, hence contribute nothing. -/
def waitsOf : List SlackResp → List Int
  | [] => []
  | SlackResp.rateLimited ra :: rest => retryAfterSeconds ra :: waitsOf rest
  | SlackResp.page _ hasMore next :: rest =>
    if hasMore && next ≠ "" then waitsOf rest else []

/-! ## Folder and document names (structure.go)

Go strings are byte slices and sanitizeFolderName, truncate and the length
caps all work on bytes, so names are modelled as lists of byte values.
Every pattern and every replacement of the strings.NewReplacer in
sanitizeFolderName is a single ASCII byte, so the replacer is exactly a
per-byte map.  ASCII string literals are injected with strBytes (for ASCII,
code points and bytes agree). -/

/-- Bytes of an ASCII string literal (code point = byte below 128). -/
def strBytes (s : String) : List Nat := s.data.map Char.toNat

/-- The filesystem-hostile bytes the spec lists: slash, backslash, colon,
star, question mark, double quote, less-than, greater-than, pipe. -/
def bannedBytes : List Nat := [47, 92, 58, 42, 63, 34, 60, 62, 124]

/-- Whether a byte string is free of all the banned bytes. -/
def noBannedBytes (bs : List Nat) : Bool :=
  bs.all (fun b => decide (b ∉ bannedBytes))

/-- One step of the strings.NewReplacer in sanitizeFolderName: slash,
backslash, colon and pipe become dash (45); star and question mark are
deleted; double quote becomes single quote (39); less-than and greater-than
become parentheses (40, 41); every other byte is kept. -/
def replaceByte (b : Nat) : List Nat :=
  if b = 47 then [45]
  else if b = 92 then [45]
  else if b = 58 then [45]
  else if b = 42 then []
  else if b = 63 then []
  else if b = 34 then [39]
  else if b = 60 then [40]
  else if b = 62 then [41]
  else if b = 124 then [45]
  else [b]

/-- The full replacer pass over a name. -/
def replaceBytes (bs : List Nat) : List Nat :=
  (bs.map replaceByte).flatten

/-- ASCII whitespace bytes (strings.TrimSpace; multi-byte Unicode spaces
are not modelled — trimming only removes bytes, which cannot affect the
properties proved here). -/
def isSpaceByte (b : Nat) : Bool := b == 32 || (9 ≤ b && b ≤ 13)

/-- Drop leading whitespace bytes. -/
def trimLeftBytes : List Nat → List Nat
  | [] => []
  | b :: rest => if isSpaceByte b then trimLeftBytes rest else b :: rest

/-- strings.TrimSpace: drop leading and trailing whitespace bytes. -/
def trimBytes (bs : List Nat) : List Nat :=
  (trimLeftBytes (trimLeftBytes bs.reverse).reverse)

/-- structure.go sanitizeFolderName: run the replacer, trim surrounding
whitespace, and cap the result at 100 bytes. -/
def sanitizeFolderName (bs : List Nat) : List Nat :=
  let result := trimBytes (replaceBytes bs)
  if 100 < result.length then result.take 100 else result

/-- structure.go ConversationFolderName: the kind prefix chosen by the
switch on the conversation type. -/
def convTypePrefix (convType : List Nat) : List Nat :=
  if convType = strBytes "dm" then strBytes "DM"
  else if convType = strBytes "mpim" then strBytes "Group"
  else if convType = strBytes "channel" then strBytes "Channel"
  else if convType = strBytes "private_channel" then strBytes "Private"
  else strBytes "Chat"

/-- structure.go ConversationFolderName: prefix, a dash separator, and the
sanitised display name. -/
def ConversationFolderName (convType name : List Nat) : List Nat :=
  convTypePrefix convType ++ strBytes " - " ++ sanitizeFolderName name

/-- structure.go truncate: newline, carriage return and tab become spaces,
then TrimSpace, then a byte cap at maxLen with a three-dot ellipsis when
over it. -/
def truncateBytes (bs : List Nat) (maxLen : Nat) : List Nat :=
  let s := trimBytes (bs.map (fun b => if b = 10 || b = 13 || b = 9 then 32 else b))
  if s.length ≤ maxLen then s
  else if maxLen ≤ 3 then s.take maxLen
  else s.take (maxLen - 3) ++ strBytes "..."

/-- The thread folder name built in structure.go EnsureThreadFolder: the
date of the parent ts, a dash separator, and the sanitised 40-byte-capped
topic preview. -/
def threadFolderName (tz : Int) (threadTS : String) (topicPreview : List Nat) : List Nat :=
  strBytes (tsToDate tz threadTS) ++ strBytes " - "
    ++ sanitizeFolderName (truncateBytes topicPreview 40)

example :
    sanitizeFolderName (strBytes "  a/b:c*d?e\"f<g>h|i  ") =
      strBytes "a-b-cde'f(g)h-i" := by decide

/-! ## Google Drive provisioning (pkg/gdrive folder.go and docs client)

Drive is modelled as a list of files plus a fresh-id counter.  A Files.List
query with name, mimeType, trashed = false and parent clauses matches
exactly the files with that name, that MIME type, not trashed, and with the
parent among their parents; PageSize(1) returns the first match.  The query
string itself is transport (escapeName quotes single quotes); the server
compares the unescaped name, which is what matchesQuery does. -/

/-- MIME type of a Drive folder. -/
def MimeTypeFolder : String := "application/vnd.google-apps.folder"

/-- MIME type of a Google Doc. -/
def MimeTypeDoc : String := "application/vnd.google-apps.document"

/-- A Drive file (folder or document). -/
structure DriveFile where
  id : String
  name : List Nat
  mimeType : String
  parents : List String
  trashed : Bool := false
  url : String
  deriving Repr, DecidableEq, Inhabited

/-- The Drive service state: stored files and a fresh-id source. -/
structure DriveState where
  files : List DriveFile
  nextId : Nat
  deriving Repr, DecidableEq, Inhabited

/-- The Files.List query used by FindFolder and FindDocument. -/
def matchesQuery (name : List Nat) (mimeType parentID : String) (f : DriveFile) : Bool :=
  f.name == name && f.mimeType == mimeType && !f.trashed
    && (parentID == "" || f.parents.contains parentID)

/-- FindFolder and FindDocument: first match of the query, if any. -/
def findFile (st : DriveState) (name : List Nat) (mimeType parentID : String) :
    Option DriveFile :=
  (st.files.filter (matchesQuery name mimeType parentID)).head?

/-- CreateFolder and CreateDocument: create a file with the requested name
and MIME type under the parent (no parents clause when the parent is ""),
with a fresh id and a server-assigned webViewLink. -/
def createFile (st : DriveState) (name : List Nat) (mimeType parentID : String) :
    DriveFile × DriveState :=
  let f : DriveFile :=
    { id := "gid" ++ toString st.nextId
      name := name
      mimeType := mimeType
      parents := if parentID = "" then [] else [parentID]
      url := "https://drive.example/" ++ "gid" ++ toString st.nextId }
  (f, { st with files := st.files ++ [f], nextId := st.nextId + 1 })

/-- folder.go FindOrCreateFolder: find by (name, parent), create if
absent. -/
def FindOrCreateFolder (st : DriveState) (name : List Nat) (parentID : String) :
    DriveFile × DriveState :=
  match findFile st name MimeTypeFolder parentID with
  | some f => (f, st)
  | none => createFile st name MimeTypeFolder parentID

/-- docs client FindOrCreateDocument: find by (title, folder), create if
absent. -/
def FindOrCreateDocument (st : DriveState) (title : List Nat) (folderID : String) :
    DriveFile × DriveState :=
  match findFile st title MimeTypeDoc folderID with
  | some f => (f, st)
  | none => createFile st title MimeTypeDoc folderID

/-! ## Writing messages into a document (docwriter.go WriteMessages and
gdrive BatchAppendMessages)

The Docs API addresses text in UTF-16 code units; a document body is
modelled as the list of its UTF-16 code units.  BatchAppendMessages builds
one batch of insertText / updateTextStyle requests, walking the blocks in
order and advancing the insertion index by utf16Len of the inserted text;
applying the batch to the document realises the append. -/

/-- UTF-16 encoding of one character: one code unit below 0x10000, a
surrogate pair above. -/
def charUtf16 (c : Char) : List Nat :=
  if c.toNat < 0x10000 then [c.toNat]
  else [0xD800 + (c.toNat - 0x10000) / 0x400, 0xDC00 + (c.toNat - 0x10000) % 0x400]

/-- UTF-16 code units of a string (utf16.Encode of the runes). -/
def utf16Units (s : String) : List Nat :=
  (s.data.map charUtf16).flatten

/-- gdrive utf16Len: number of UTF-16 code units of a string. -/
def utf16Len (s : String) : Nat :=
  (utf16Units s).length

example : utf16Len "ab" = 2 := by decide
example : utf16Len "😀" = 2 := by decide

/-- A formatted message block handed to BatchAppendMessages. -/
structure MessageBlock where
  senderName : String
  timestamp : String
  content : String
  deriving Repr, DecidableEq, Inhabited

/-- The header line BatchAppendMessages inserts for a block: sender name,
two spaces, timestamp, newline. -/
def blockHeader (b : MessageBlock) : String :=
  b.senderName ++ "  " ++ b.timestamp ++ "\n"

/-- The body BatchAppendMessages inserts for a block: content and a
trailing blank line. -/
def blockBody (b : MessageBlock) : String :=
  b.content ++ "\n\n"

/-- One request of a documents batchUpdate: insertText at an index, or
updateTextStyle over a range (style requests do not change the text). -/
inductive DocReq
  | insertText (index : Nat) (text : String)
  | updateStyle (startIndex endIndex : Nat)
  deriving Repr, DecidableEq

/-- The request list BatchAppendMessages builds, starting at the document
end index: per block, insert the header, bold the sender-name range,
advance by the header length, insert the body, advance by the body
length. -/
def batchAppendRequests : Nat → List MessageBlock → List DocReq
  | _, [] => []
  | i, b :: rest =>
    DocReq.insertText i (blockHeader b)
      :: DocReq.updateStyle i (i + utf16Len b.senderName)
      :: DocReq.insertText (i + utf16Len (blockHeader b)) (blockBody b)
      :: batchAppendRequests (i + utf16Len (blockHeader b) + utf16Len (blockBody b)) rest

/-- Effect of one batchUpdate request on the document body. -/
def applyDocReq (doc : List Nat) : DocReq → List Nat
  | DocReq.insertText i t => doc.take i ++ utf16Units t ++ doc.drop i
  | DocReq.updateStyle _ _ => doc

/-- Effect of a whole batch, executed in order. -/
def applyDocReqs (doc : List Nat) (reqs : List DocReq) : List Nat :=
  reqs.foldl applyDocReq doc

/-- gdrive BatchAppendMessages: no call for an empty block list, otherwise
one batchUpdate built from the end index. -/
def BatchAppendMessages (doc : List Nat) (endIndex : Nat) (blocks : List MessageBlock) :
    List Nat :=
  if blocks.isEmpty then doc else applyDocReqs doc (batchAppendRequests endIndex blocks)

/-- The UTF-16 units a block contributes to the document. -/
def renderBlock (b : MessageBlock) : List Nat :=
  utf16Units (blockHeader b) ++ utf16Units (blockBody b)

/-- docwriter.go WriteMessages sorts by the less function TS i < TS j; the
resulting order is sorted under ts ≤ (Go sort.Slice is an unstable
comparison sort; for the pairwise-distinct timestamps of a conversation
the result is unique). -/
def sortMessages (msgs : List Msg) : List Msg :=
  msgs.insertionSort (fun a b => strLe a.ts b.ts = true)

/-- The filter WriteMessages applies after converting each message to a
block: blocks with no content and no sender are dropped.  (messageToBlock
is abstracted as toBlock: the mrkdwn conversion is outside the claims; its
getSenderName never returns an empty string.) -/
def keepBlock (b : MessageBlock) : Bool :=
  !(b.content == "") || !(b.senderName == "")

/-- docwriter.go WriteMessages: nothing for an empty message list; else
sort by ts, convert to blocks, drop empty blocks, batch-append. -/
def WriteMessages (toBlock : Msg → MessageBlock) (doc : List Nat) (endIndex : Nat)
    (msgs : List Msg) : List Nat :=
  if msgs.isEmpty then doc
  else BatchAppendMessages doc endIndex (((sortMessages msgs).map toBlock).filter keepBlock)

/-! ## The export index (index.go)

The index is a JSON-backed map; Go map fields are modelled as association
lists (Go map iteration order is irrelevant here because every iteration
the exporter performs goes through an explicit sort).  Conversation and doc
records are mutated through pointers in Go; the model re-stores a record
after each mutation, which has the same effect. -/

/-- index.go DocExport. -/
structure DocExport where
  docID : String
  docURL : String
  title : String
  date : String
  lastMessageTS : String := ""
  messageCount : Nat := 0
  deriving Repr, DecidableEq, Inhabited

/-- index.go ThreadExport. -/
structure ThreadExport where
  threadTS : String
  folderID : String := ""
  folderURL : String := ""
  folderName : List Nat := []
  dailyDocs : List (String × DocExport) := []
  replyCount : Nat := 0
  lastReplyTS : String := ""
  deriving Repr, DecidableEq, Inhabited

/-- index.go ConversationExport.  A record created by
GetOrCreateConversation carries the Go zero value of Status, the empty
string. -/
structure ConversationExport where
  id : String
  name : List Nat
  convType : String
  folderID : String := ""
  folderURL : String := ""
  threadsFolderID : String := ""
  status : String := ""
  dailyDocs : List (String × DocExport) := []
  threads : List (String × ThreadExport) := []
  lastMessageTS : String := ""
  messageCount : Nat := 0
  deriving Repr, DecidableEq, Inhabited

/-- index.go ExportIndex (the in-memory state; UpdatedAt and the users
cache play no part in the claims). -/
structure ExportIndex where
  rootFolderID : String := ""
  rootFolderURL : String := ""
  conversations : List (String × ConversationExport) := []
  deriving Repr, DecidableEq, Inhabited

/-- Association-list lookup. -/
def alistGet {α : Type} (l : List (String × α)) (k : String) : Option α :=
  (l.find? (fun p => p.1 == k)).map (fun p => p.2)

/-- Association-list update-or-append. -/
def alistSet {α : Type} (l : List (String × α)) (k : String) (v : α) :
    List (String × α) :=
  if (l.find? (fun p => p.1 == k)).isSome then
    l.map (fun p => if p.1 == k then (k, v) else p)
  else l ++ [(k, v)]

/-- index.go GetDailyDoc. -/
def getDailyDoc (idx : ExportIndex) (convID date : String) : Option DocExport :=
  (alistGet idx.conversations convID).bind (fun c => alistGet c.dailyDocs date)

/-- index.go GetThread. -/
def getThread (idx : ExportIndex) (convID threadTS : String) : Option ThreadExport :=
  (alistGet idx.conversations convID).bind (fun c => alistGet c.threads threadTS)

/-- index.go LookupDocURL: the ts is mapped to its date key; the daily doc
URL if present, else the conversation folder URL, else empty. -/
def LookupDocURL (tz : Int) (idx : ExportIndex) (convID messageTS : String) : String :=
  match alistGet idx.conversations convID with
  | none => ""
  | some conv =>
    match alistGet conv.dailyDocs (tsToDate tz messageTS) with
    | some doc => doc.docURL
    | none => conv.folderURL

/-! ## Message filtering and date grouping (docwriter.go) -/

/-- docwriter.go FilterMainMessages: no thread_ts, or a thread parent. -/
def FilterMainMessages (msgs : List Msg) : List Msg :=
  msgs.filter (fun m => m.threadTS == "" || m.ts == m.threadTS)

/-- docwriter.go GetThreadParents: messages with replies. -/
def GetThreadParents (msgs : List Msg) : List Msg :=
  msgs.filter (fun m => decide (0 < m.replyCount))

/-- The group GroupMessagesByDate builds for one date key: the messages of
that date, in input order (Go map append preserves per-key order). -/
def groupFor (tz : Int) (msgs : List Msg) (date : String) : List Msg :=
  msgs.filter (fun m => DateFromTS tz m.ts == date)

/-- First-occurrence deduplication of the date keys (the Go map has each
key once). -/
def dedupKeys : List String → List String
  | [] => []
  | d :: rest => d :: (dedupKeys rest).filter (fun x => x ≠ d)

/-- docwriter.go SortedDates: the group keys in ascending order. -/
def SortedDates (tz : Int) (msgs : List Msg) : List String :=
  (dedupKeys (msgs.map (fun m => DateFromTS tz m.ts))).insertionSort
    (fun a b => strLe a b = true)

/-! ## The orchestrator (exporter.go ExportConversation)

The world state visible to one export run: the in-memory index, the Drive
service, the text content already appended to each doc (as the message
sequence, since every message yields a non-empty block), and a trace of the
observable events the claims speak about (doc batch writes and index
saves).  Remote fetching is an oracle: server oldest latest is the
concatenation of the history batches (newest first, exclusive bounds),
serverReplies threadTS the concatenation of the replies pages.  Failure
paths (which abort the conversation in Go) are Option none. -/

/-- An observable orchestrator event. -/
inductive Ev
  | writeDoc (docID : String) (count : Nat)
  | saveIndex
  deriving Repr, DecidableEq

/-- The state an export run reads and writes. -/
structure World where
  index : ExportIndex
  drive : DriveState
  docs : List (String × List Msg)
  trace : List Ev
  deriving Repr, DecidableEq, Inhabited

/-- Orchestrator configuration (the exporter fields the claims involve). -/
structure ExpCfg where
  syncMode : Bool := false
  dateFrom : String := ""
  dateTo : String := ""
  rootFolderName : String := ""
  deriving Repr

/-- NewFolderStructure defaults the root folder name. -/
def effectiveRootName (s : String) : String :=
  if s = "" then "Slack Exports" else s

/-- structure.go EnsureRootFolder (the by-name path; the configured
folder-id path is not exercised by the claims). -/
def ensureRootFolder (rootFolderName : String) (w : World) : (String × String) × World :=
  if w.index.rootFolderID ≠ "" then ((w.index.rootFolderID, w.index.rootFolderURL), w)
  else
    let p := FindOrCreateFolder w.drive (strBytes (effectiveRootName rootFolderName)) ""
    ((p.1.id, p.1.url),
     { w with drive := p.2,
              index := { w.index with rootFolderID := p.1.id, rootFolderURL := p.1.url } })

/-- structure.go EnsureConversationFolder: reuse a known folder, else
provision under the root and record the conversation (GetOrCreateConversation
leaves status at the zero value). -/
def ensureConversationFolder (rootFolderName : String) (convID convType : String)
    (name : List Nat) (w : World) : ConversationExport × World :=
  match alistGet w.index.conversations convID with
  | some conv =>
    if conv.folderID ≠ "" then (conv, w)
    else provision (some conv) w
  | none => provision none w
where
  provision (existing : Option ConversationExport) (w : World) :
      ConversationExport × World :=
    let rp := ensureRootFolder rootFolderName w
    let w := rp.2
    let fp := FindOrCreateFolder w.drive (ConversationFolderName (strBytes convType) name)
                rp.1.1
    let w := { w with drive := fp.2 }
    let base := match existing with
      | some conv => conv
      | none => { id := convID, name := name, convType := convType }
    let conv := { base with folderID := fp.1.id, folderURL := fp.1.url,
                            name := name, convType := convType }
    (conv, { w with index :=
      { w.index with conversations := alistSet w.index.conversations convID conv } })

/-- index.go SetDailyDoc (a silent no-op when the conversation is not in
the index, as in the source). -/
def setDailyDocOp (convID date : String) (doc : DocExport) (w : World) : World :=
  match alistGet w.index.conversations convID with
  | none => w
  | some conv =>
    let conv := { conv with dailyDocs := alistSet conv.dailyDocs date doc }
    let convs := alistSet w.index.conversations convID conv
    { w with index := { w.index with conversations := convs } }

/-- index.go SetThread (same no-op convention). -/
def setThreadOp (convID : String) (thread : ThreadExport) (w : World) : World :=
  match alistGet w.index.conversations convID with
  | none => w
  | some conv =>
    let conv := { conv with threads := alistSet conv.threads thread.threadTS thread }
    let convs := alistSet w.index.conversations convID conv
    { w with index := { w.index with conversations := convs } }

/-- structure.go EnsureDailyDoc: reuse the indexed doc, else find-or-create
the date-titled document in the conversation folder and record it (with
zero stats). -/
def ensureDailyDoc (convID date : String) (w : World) : Option (DocExport × World) :=
  match getDailyDoc w.index convID date with
  | some doc =>
    if doc.docID ≠ "" then some (doc, w) else create w
  | none => create w
where
  create (w : World) : Option (DocExport × World) :=
    match alistGet w.index.conversations convID with
    | none => none
    | some conv =>
      let gp := FindOrCreateDocument w.drive (strBytes date) conv.folderID
      let doc : DocExport :=
        { docID := gp.1.id, docURL := gp.1.url, title := date, date := date }
      some (doc, setDailyDocOp convID date doc { w with drive := gp.2 })

/-- The content-level effect of docwriter WriteMessages on a doc: nothing
for an empty list, else append the ts-sorted messages and record the batch
write.  (Every message survives the empty-block filter because
getSenderName always falls back to a non-empty name.) -/
def writeMessagesOp (docID : String) (msgs : List Msg) (w : World) : World :=
  if msgs.isEmpty then w
  else
    { w with
      docs := alistSet w.docs docID (((alistGet w.docs docID).getD []) ++ sortMessages msgs)
      trace := w.trace ++ [Ev.writeDoc docID msgs.length] }

/-- structure.go EnsureThreadsFolder: reuse or create the literal Threads
subfolder of the conversation folder. -/
def ensureThreadsFolder (convID : String) (w : World) : Option (String × World) :=
  match alistGet w.index.conversations convID with
  | none => none
  | some conv =>
    if conv.threadsFolderID ≠ "" then some (conv.threadsFolderID, w)
    else
      let fp := FindOrCreateFolder w.drive (strBytes "Threads") conv.folderID
      let conv := { conv with threadsFolderID := fp.1.id }
      let convs := alistSet w.index.conversations convID conv
      some (fp.1.id,
        { w with drive := fp.2, index := { w.index with conversations := convs } })

/-- structure.go EnsureThreadFolder: reuse the indexed thread folder, else
provision a folder named date - preview under Threads and record the
thread entry. -/
def ensureThreadFolder (tz : Int) (convID threadTS : String) (topicPreview : List Nat)
    (w : World) : Option (ThreadExport × World) :=
  match getThread w.index convID threadTS with
  | some t =>
    if t.folderID ≠ "" then some (t, w) else provisionThread (some t) w
  | none => provisionThread none w
where
  provisionThread (existing : Option ThreadExport) (w : World) :
      Option (ThreadExport × World) :=
    match ensureThreadsFolder convID w with
    | none => none
    | some (threadsFolderID, w) =>
      let fname := threadFolderName tz threadTS topicPreview
      let fp := FindOrCreateFolder w.drive fname threadsFolderID
      let base := match existing with
        | some t => t
        | none => { threadTS := threadTS }
      let thread := { base with folderID := fp.1.id, folderURL := fp.1.url,
                                folderName := fname }
      some (thread, setThreadOp convID thread { w with drive := fp.2 })

/-- Re-store a thread daily doc after a stats mutation (through the Go
pointer chain thread.DailyDocs[date]). -/
def setThreadDailyDocOp (convID threadTS date : String) (doc : DocExport) (w : World) :
    World :=
  match getThread w.index convID threadTS with
  | none => w
  | some t =>
    setThreadOp convID { t with dailyDocs := alistSet t.dailyDocs date doc } w

/-- structure.go EnsureThreadDailyDoc: reuse the indexed doc, else
find-or-create the date-titled document in the thread folder. -/
def ensureThreadDailyDoc (convID threadTS date : String) (w : World) :
    Option (DocExport × World) :=
  match getThread w.index convID threadTS with
  | none => none
  | some thread =>
    match alistGet thread.dailyDocs date with
    | some doc =>
      if doc.docID ≠ "" then some (doc, w) else createThreadDoc thread w
    | none => createThreadDoc thread w
where
  createThreadDoc (thread : ThreadExport) (w : World) : Option (DocExport × World) :=
    let gp := FindOrCreateDocument w.drive (strBytes date) thread.folderID
    let doc : DocExport :=
      { docID := gp.1.id, docURL := gp.1.url, title := date, date := date }
    some (doc, setThreadDailyDocOp convID threadTS date doc { w with drive := gp.2 })

/-- exporter.go exportThread: provision the thread folder, fetch all
replies, group them by date, write each date ascending, then record reply
count and last reply ts.  serverReplies gives the concatenation of the
conversations.replies pages for the thread. -/
def exportThread (tz : Int) (serverReplies : String → List Msg) (convID : String)
    (parent : Msg) (w : World) : Option World :=
  let tp := truncateBytes (strBytes parent.text) 40
  let topicPreview := if tp.isEmpty then strBytes "Thread" else tp
  (ensureThreadFolder tz convID parent.ts topicPreview w).bind (fun pw =>
    let w := pw.2
    let replies := serverReplies parent.ts
    if replies.isEmpty then some w
    else
      let dates := SortedDates tz replies
      (dates.foldlM (fun w date =>
        let msgs := groupFor tz replies date
        (ensureThreadDailyDoc convID parent.ts date w).map (fun dw =>
          let doc := dw.1
          let w := writeMessagesOp doc.docID msgs dw.2
          let doc := { doc with messageCount := doc.messageCount + msgs.length }
          setThreadDailyDocOp convID parent.ts date doc w)) w).map (fun w =>
        match getThread w.index convID parent.ts with
        | none => w
        | some t =>
          let t := { t with replyCount := replies.length,
                            lastReplyTS := match replies.getLast? with
                              | some r => r.ts
                              | none => t.lastReplyTS }
          setThreadOp convID t w))

/-- exporter.go ExportConversation, happy path (an error return in Go is
Option none): provision the conversation folder; choose the fetch bounds
from sync mode or the explicit range; fetch everything; return early when
nothing came back; write the main messages day by day, updating each doc
record's stats; export the threads (a failed thread is logged and skipped);
update the conversation record; save the index once at the end. -/
def ExportConversation (cfg : ExpCfg) (tz : Int)
    (server : String → String → List Msg) (serverReplies : String → List Msg)
    (convID convType : String) (convName : List Nat) (w : World) : Option World :=
  let cw := ensureConversationFolder cfg.rootFolderName convID convType convName w
  let conv := cw.1
  let w := cw.2
  let oldest := if cfg.syncMode then conv.lastMessageTS else cfg.dateFrom
  let latest := if cfg.syncMode then "" else cfg.dateTo
  let allMessages := server oldest latest
  if allMessages.isEmpty then some w
  else
    let mainMessages := FilterMainMessages allMessages
    let dates := SortedDates tz mainMessages
    (dates.foldlM (fun w date =>
        let msgs := groupFor tz mainMessages date
        (ensureDailyDoc convID date w).map (fun dw =>
          let doc := dw.1
          let w := writeMessagesOp doc.docID msgs dw.2
          let doc := { doc with
            messageCount := doc.messageCount + msgs.length,
            lastMessageTS := match msgs.getLast? with
              | some m => m.ts
              | none => doc.lastMessageTS }
          setDailyDocOp convID date doc w)) w).map (fun w =>
      let parents := GetThreadParents allMessages
      let w := parents.foldl (fun w parent =>
        match exportThread tz serverReplies convID parent w with
        | some w2 => w2
        | none => w) w
      let w := match alistGet w.index.conversations convID with
        | none => w
        | some c =>
          let c := { c with
            lastMessageTS := match allMessages.head? with
              | some m => m.ts
              | none => c.lastMessageTS,
            messageCount := c.messageCount + allMessages.length }
          let convs := alistSet w.index.conversations convID c
          { w with index := { w.index with conversations := convs } }
      { w with trace := w.trace ++ [Ev.saveIndex] })

/-- The Slack history service, modelled from the spec (§6): the fetched
slice for a conversation is every stored message strictly inside the
(oldest, latest) bounds (GetAllMessages does not set inclusive; an empty
bound is no bound), delivered newest first. -/
def serverFetch (all : List Msg) (oldest latest : String) : List Msg :=
  (all.filter (fun m =>
      (oldest == "" || strLt oldest m.ts) && (latest == "" || strLt m.ts latest))
    ).insertionSort (fun a b => strLe b.ts a.ts = true)

/-- A fresh world: empty index, empty Drive, no docs, no trace. -/
def emptyWorld : World :=
  { index := {}, drive := { files := [], nextId := 1 }, docs := [], trace := [] }

/-- Occurrences of a message in the concatenation of the daily documents
the index records for a conversation. -/
def convDailyDocsCount (w : World) (convID : String) (m : Msg) : Nat :=
  match alistGet w.index.conversations convID with
  | none => 0
  | some conv =>
    (conv.dailyDocs.map (fun p => ((alistGet w.docs p.2.docID).getD []).count m)).sum

/-- Totalised accessors over a possibly-failed run. -/
def runCount (ow : Option World) (convID : String) (m : Msg) : Nat :=
  match ow with
  | none => 0
  | some w => convDailyDocsCount w convID m

/-- The trace of a possibly-failed run. -/
def runTrace (ow : Option World) : List Ev :=
  match ow with
  | none => []
  | some w => w.trace

/-- The recorded status of a conversation after a possibly-failed run
("missing" when absent, to separate absence from the empty status). -/
def runStatus (ow : Option World) (convID : String) : String :=
  match ow with
  | none => "missing"
  | some w =>
    match alistGet w.index.conversations convID with
    | none => "missing"
    | some conv => conv.status

/-- The recorded daily-doc stats of a conversation after a run. -/
def runDailyDoc (ow : Option World) (convID date : String) : Option DocExport :=
  ow.bind (fun w => getDailyDoc w.index convID date)

/-! ## Concrete export scenarios

Small closed runs of the orchestrator model used to settle the claims about
ExportConversation.  The server state is fixed, the zone is UTC, and the
conversation is the DM D1 with display name Alice. -/

/-- Default exporter options: no sync, no explicit range. -/
def scenCfg : ExpCfg := {}

/-- A message on 2024-02-01 (UTC). -/
def scenMsgA : Msg := { ts := "1706745603.000100", user := "U1", text := "hi" }

/-- A message on 2024-02-02 (UTC). -/
def scenMsgB : Msg := { ts := "1706900000.000000", user := "U1", text := "later" }

/-- A second message on 2024-02-01 (UTC), newer than scenMsgA. -/
def scenMsgC : Msg := { ts := "1706745999.000200", user := "U1", text := "second" }

/-- Server holding exactly scenMsgA. -/
def scenServerA : String → String → List Msg := serverFetch [scenMsgA]

/-- Server holding two messages on distinct days. -/
def scenServerAB : String → String → List Msg := serverFetch [scenMsgA, scenMsgB]

/-- Server holding two messages on the same day. -/
def scenServerAC : String → String → List Msg := serverFetch [scenMsgA, scenMsgC]

/-- No threads anywhere in the scenarios. -/
def scenNoReplies : String → List Msg := fun _ => []

/-- First full export run over scenServerA. -/
def scenRun1 : Option World :=
  ExportConversation scenCfg 0 scenServerA scenNoReplies "D1" "dm" (strBytes "Alice")
    emptyWorld

/-- A rerun over the unchanged server state (what a resumed export does;
the --resume flag is parsed but never consulted, and sync mode is off by
default). -/
def scenRun2 : Option World :=
  scenRun1.bind
    (ExportConversation scenCfg 0 scenServerA scenNoReplies "D1" "dm" (strBytes "Alice"))

/-- One run over the two-day server state. -/
def scenRunDays : Option World :=
  ExportConversation scenCfg 0 scenServerAB scenNoReplies "D1" "dm" (strBytes "Alice")
    emptyWorld

/-- One run over the one-day two-message server state. -/
def scenRunDay : Option World :=
  ExportConversation scenCfg 0 scenServerAC scenNoReplies "D1" "dm" (strBytes "Alice")
    emptyWorld

/-- A single message used to instantiate general statements. -/
def witMsg : Msg := { ts := "86400.000001", user := "U1", text := "x" }

/-- A conversation record used to instantiate general statements. -/
def witConv : ConversationExport := { id := "C1", name := [], convType := "dm" }

/-- An index holding just witConv. -/
def witIdx : ExportIndex := { conversations := [("C1", witConv)] }

/-- A concrete block conversion used to instantiate general statements. -/
def witToBlock : Msg → MessageBlock :=
  fun m => { senderName := m.user, timestamp := "", content := m.text }

/-! # Theorems -/

/-- Claim C1: at-most-once delivery per message fails in the code.  The
orchestrator reuses the indexed daily document but applies no filter
against the DocRef's recorded last_message_ts, so a second export run over
the unchanged server state appends the same message again: after one run
the daily documents of D1 contain scenMsgA once, after the rerun twice. -/
theorem claim_C1_rerun_duplicates :
    runCount scenRun1 "D1" scenMsgA = 1 ∧ runCount scenRun2 "D1" scenMsgA = 2 := by
  constructor <;> decide

/-- Claim C3: checkpoint-per-document fails in the code.  A run over two
days performs both daily batch writes and only then a single index save;
no save separates the first write from the second. -/
theorem claim_C3_one_save_after_all_docs :
    runTrace scenRunDays =
      [Ev.writeDoc "gid3" 1, Ev.writeDoc "gid4" 1, Ev.saveIndex] := by
  decide

/-- Claim C4: the per-conversation status state machine does not exist in
the code.  The record created when the export begins carries the empty
status (not in_progress), and after a successful run the status is still
empty (not complete). -/
theorem claim_C4_status_never_written :
    (ensureConversationFolder "" "D1" "dm" (strBytes "Alice") emptyWorld).1.status = ""
      ∧ runStatus scenRun1 "D1" = ""
      ∧ runStatus scenRun1 "D1" ≠ "complete" := by
  refine ⟨by decide, by decide, by decide⟩

/-- Claim C5: the recorded per-doc last_message_ts is the OLDEST message of
the day's newest-first fetch slice, not the newest.  After one run over two
same-day messages the doc record holds last_message_ts of scenMsgA and a
non-zero message count, while the newer scenMsgC was written to that
document. -/
theorem claim_C5_records_oldest_of_batch :
    (runDailyDoc scenRunDay "D1" "2024-02-01").map (fun d => d.lastMessageTS)
        = some "1706745603.000100"
      ∧ (runDailyDoc scenRunDay "D1" "2024-02-01").map (fun d => d.messageCount) = some 2
      ∧ runCount scenRunDay "D1" scenMsgC = 1
      ∧ strLt "1706745603.000100" "1706745999.000200" = true := by
  refine ⟨by decide, by decide, by decide, by decide⟩

/-- Running write operations from a character list appends exactly the
taken characters. -/
theorem runFileOps_writeChars (cs : List Char) (k : Nat) (s : String) :
    runFileOps s ((cs.map FileOp.writeChar).take k) = String.mk (s.data ++ cs.take k) := by
  induction cs generalizing k s with
  | nil => simp [runFileOps]
  | cons c rest ih =>
    cases k with
    | zero => simp [runFileOps]
    | succ k =>
      simp only [List.map_cons, List.take_succ_cons, runFileOps, List.foldl_cons]
      have h := ih k (s.push c)
      simp only [runFileOps] at h
      simpa [applyFileOp, String.data_push] using h

/-- Claim C2 counterexample: index.go Save writes the index with a single
os.WriteFile on the final path; aborting the persistence step after the
open and three byte writes leaves the first three bytes of the new data on
disk, not the pre-write content (the spec-modelled temp-file-and-rename
variant would have left it intact). -/
theorem claim_C2_counterexample :
    saveAborted "old-index" "new-index-data" 4 = "new"
      ∧ saveAborted "old-index" "new-index-data" 4 ≠ "old-index"
      ∧ atomicSaveAborted "old-index" "new-index-data" 4 = "old-index" := by
  refine ⟨by decide, by decide, by decide⟩

/-- Claim C2 amended: Save persists the index by truncating the target
file in place and writing the serialised bytes directly.  An abort before
the open preserves the pre-write content; an abort after the open leaves
exactly the already-written prefix of the new serialisation (possibly
empty, i.e. a truncated index); a completed Save leaves the new
serialisation. -/
theorem claim_C2_amended (pre data : String) (n : Nat) (h : 0 < n) :
    saveAborted pre data 0 = pre
      ∧ saveAborted pre data n = String.mk (data.data.take (n - 1))
      ∧ saveAborted pre data ((saveOps data).length) = data := by
  refine ⟨rfl, ?_, ?_⟩
  · obtain ⟨k, rfl⟩ := Nat.exists_eq_add_of_lt h
    simp only [saveAborted, saveOps, Nat.zero_add, List.take_succ_cons, runFileOps,
      List.foldl_cons, applyFileOp]
    have hw := runFileOps_writeChars data.data k ""
    simp only [runFileOps] at hw
    simpa using hw
  · simp only [saveAborted, saveOps, List.length_cons, List.length_map,
      List.take_succ_cons, List.take_length, runFileOps, List.foldl_cons, applyFileOp]
    have hw := runFileOps_writeChars data.data data.data.length ""
    simp only [runFileOps, List.take_length] at hw
    simpa using hw

/-- Claim C2 amended, witness: abort after the open and one byte write of a
three-byte serialisation over two-byte pre-content. -/
theorem claim_C2_amended_witness :
    saveAborted "ab" "xyz" 0 = "ab"
      ∧ saveAborted "ab" "xyz" 2 = String.mk ("xyz".data.take 1)
      ∧ saveAborted "ab" "xyz" ((saveOps "xyz").length) = "xyz" :=
  claim_C2_amended "ab" "xyz" 2 (by decide)

/-- Claim C6 counterexample: the date key is NOT the UTC calendar day
independent of the machine zone.  tsToDate goes through time.Unix, which
is local time: at UTC the key of 1706745603 is 2024-02-01, but on a
machine two hours west of UTC the same timestamp gets the key 2024-01-31. -/
theorem claim_C6_counterexample :
    tsToDate 0 "1706745603.000100" = "2024-02-01"
      ∧ tsToDate (-7200) "1706745603.000100" = "2024-01-31"
      ∧ tsToDate (-7200) "1706745603.000100" ≠ tsToDate 0 "1706745603.000100" := by
  refine ⟨by decide, by decide, by decide⟩

/-- Claim C6 amended: grouping, doc titling and lookup_doc_url all use the
single date-key function tsToDate, which is the calendar day of floor(ts)
in the machine local zone: it depends only on the local day number
floor((floor(ts) + tzoffset) / 86400) — in particular the sub-second part
never matters — and equals the UTC day exactly when the zone offset is
zero.  Every message belongs to the group of its own key, and LookupDocURL
consults the daily doc stored under the key of the queried ts. -/
theorem claim_C6_amended (tz tz2 : Int) (ts ts2 : String) (msgs : List Msg) (m : Msg)
    (idx : ExportIndex) (conv : ConversationExport) (convID : String)
    (hm : m ∈ msgs)
    (hconv : alistGet idx.conversations convID = some conv)
    (hday : (Int.ofNat (tsSeconds ts) + tz).fdiv 86400
          = (Int.ofNat (tsSeconds ts2) + tz2).fdiv 86400) :
    m ∈ groupFor tz msgs (DateFromTS tz m.ts)
      ∧ tsToDate tz ts = tsToDate tz2 ts2
      ∧ LookupDocURL tz idx convID ts =
          (match alistGet conv.dailyDocs (tsToDate tz ts) with
            | some doc => doc.docURL
            | none => conv.folderURL) := by
  refine ⟨?_, ?_, ?_⟩
  · exact List.mem_filter.mpr ⟨hm, by simp⟩
  · simp only [tsToDate, hday]
  · simp only [LookupDocURL, hconv]

/-- Claim C6 amended, witness: one message, one indexed conversation, and
two timestamps of the same UTC day. -/
theorem claim_C6_amended_witness :
    witMsg ∈ groupFor 0 [witMsg] (DateFromTS 0 witMsg.ts)
      ∧ tsToDate 0 "86400.000001" = tsToDate 0 "86459.900000"
      ∧ LookupDocURL 0 witIdx "C1" "86400.000001" =
          (match alistGet witConv.dailyDocs (tsToDate 0 "86400.000001") with
            | some doc => doc.docURL
            | none => witConv.folderURL) :=
  claim_C6_amended 0 0 "86400.000001" "86459.900000" [witMsg] witMsg witIdx witConv "C1"
    (by decide) (by decide) (by decide)

/-- Claim C7 counterexample: the Retry-After wait is NOT capped at 60
seconds — a server hint of 3600 is honoured in full. -/
theorem claim_C7_counterexample :
    retryAfterSeconds "3600" = 3600 ∧ ¬(retryAfterSeconds "3600" ≤ 60) := by
  refine ⟨by decide, by decide⟩

/-- The pagination loop requests exactly the cursors of cursorsOf and
sleeps exactly the waits of waitsOf, on top of whatever the log already
holds. -/
theorem getAllMessagesLoop_spec (script : List SlackResp) :
    ∀ (cursor : String) (log : FetchLog),
    (getAllMessagesLoop script cursor log).requests = log.requests ++ cursorsOf script cursor
      ∧ (getAllMessagesLoop script cursor log).waits = log.waits ++ waitsOf script := by
  induction script with
  | nil => intro cursor log; simp [getAllMessagesLoop, cursorsOf, waitsOf]
  | cons resp rest ih =>
    intro cursor log
    cases resp with
    | rateLimited ra =>
      simp only [getAllMessagesLoop, cursorsOf, waitsOf]
      have h := ih cursor
        { log with requests := log.requests ++ [cursor],
                   waits := log.waits ++ [retryAfterSeconds ra] }
      simpa [List.append_assoc] using h
    | page msgs hasMore next =>
      simp only [getAllMessagesLoop, cursorsOf, waitsOf]
      by_cases hc : hasMore = true ∧ ¬next = ""
      · simp only [hc, if_true]
        refine ⟨?_, ?_⟩
        · have h := (ih next
            { log with requests := log.requests ++ [cursor],
                       batches := log.batches ++ (if msgs.isEmpty then [] else [msgs]) }).1
          simpa [List.append_assoc, hc] using h
        · have h := (ih next
            { log with requests := log.requests ++ [cursor],
                       batches := log.batches ++ (if msgs.isEmpty then [] else [msgs]) }).2
          simpa [List.append_assoc, hc] using h
      · simp [hc]

/-- Claim C7 amended: on a 429 the client waits exactly the
server-provided Retry-After hint, defaulting to 1 second when the header
is absent or unparsable, with NO cap, and retries with the same cursor: a
429 response never advances the pagination cursor (the request after a
rate-limited request, when one is issued, carries the identical cursor). -/
theorem claim_C7_amended (script rest : List SlackResp) (c0 ra : String) :
    (getAllMessagesLoop script c0 { requests := [], waits := [], batches := [] }).requests
        = cursorsOf script c0
      ∧ (getAllMessagesLoop script c0 { requests := [], waits := [], batches := [] }).waits
        = waitsOf script
      ∧ retryAfterSeconds "" = 1
      ∧ cursorsOf (SlackResp.rateLimited ra :: rest) c0 = c0 :: cursorsOf rest c0
      ∧ ((cursorsOf rest c0).head? = none ∨ (cursorsOf rest c0).head? = some c0) := by
  refine ⟨?_, ?_, by decide, rfl, ?_⟩
  · simpa using (getAllMessagesLoop_spec script c0 { requests := [], waits := [], batches := [] }).1
  · simpa using (getAllMessagesLoop_spec script c0 { requests := [], waits := [], batches := [] }).2
  · cases rest with
    | nil => exact Or.inl rfl
    | cons r rs =>
      cases r with
      | rateLimited ra2 => exact Or.inr rfl
      | page msgs hasMore next => exact Or.inr rfl

/-- After a create necessitated by an unsuccessful find, the same query
finds exactly the created file. -/
theorem findFile_after_create (st : DriveState) (name : List Nat) (mt parentID : String)
    (hnone : findFile st name mt parentID = none) :
    findFile (createFile st name mt parentID).2 name mt parentID
      = some (createFile st name mt parentID).1 := by
  have hfilter : st.files.filter (matchesQuery name mt parentID) = [] := by
    rcases hfe : st.files.filter (matchesQuery name mt parentID) with _ | ⟨a, l⟩
    · rfl
    · rw [findFile, hfe] at hnone
      simp at hnone
  have hmatch : matchesQuery name mt parentID (createFile st name mt parentID).1 = true := by
    by_cases hp : parentID = "" <;> simp [matchesQuery, createFile, hp]
  simp [findFile, createFile, List.filter_append, hfilter, hmatch]
  simpa [createFile] using hmatch

/-- Claim C9: find-or-create is idempotent for folders and for documents —
a second call with the same name and the same parent against the state the
first call left behind returns the very same artefact (in particular the
same identifier), whether the first call found or created it. -/
theorem claim_C9_find_or_create_idempotent (st : DriveState) (name title : List Nat)
    (parentID folderID : String) :
    (FindOrCreateFolder (FindOrCreateFolder st name parentID).2 name parentID).1
        = (FindOrCreateFolder st name parentID).1
      ∧ (FindOrCreateDocument (FindOrCreateDocument st title folderID).2 title folderID).1
        = (FindOrCreateDocument st title folderID).1 := by
  constructor
  · rcases h : findFile st name MimeTypeFolder parentID with _ | f
    · have h2 := findFile_after_create st name MimeTypeFolder parentID h
      simp [FindOrCreateFolder, h, h2]
    · simp [FindOrCreateFolder, h]
  · rcases h : findFile st title MimeTypeDoc folderID with _ | f
    · have h2 := findFile_after_create st title MimeTypeDoc folderID h
      simp [FindOrCreateDocument, h, h2]
    · simp [FindOrCreateDocument, h]

/-- Every byte the replacer emits is safe: the nine banned bytes map to
dash, nothing, quote or parentheses, and any other byte is its own safe
self. -/
theorem replaceByte_safe (b x : Nat) (hx : x ∈ replaceByte b) : x ∉ bannedBytes := by
  simp only [replaceByte] at hx
  split_ifs at hx <;> simp_all [bannedBytes]

/-- Membership after the full replacer pass comes from the per-byte
replacement of some input byte. -/
theorem mem_replaceBytes {bs : List Nat} {x : Nat} (hx : x ∈ replaceBytes bs) :
    ∃ b ∈ bs, x ∈ replaceByte b := by
  simp only [replaceBytes, List.mem_flatten, List.mem_map] at hx
  obtain ⟨l, ⟨b, hb, rfl⟩, hxl⟩ := hx
  exact ⟨b, hb, hxl⟩

/-- Left-trimming only removes bytes. -/
theorem mem_trimLeftBytes {l : List Nat} {x : Nat} (hx : x ∈ trimLeftBytes l) : x ∈ l := by
  induction l with
  | nil => simp [trimLeftBytes] at hx
  | cons b rest ih =>
    simp only [trimLeftBytes] at hx
    split at hx
    · exact List.mem_cons_of_mem _ (ih hx)
    · exact hx

/-- Trimming only removes bytes. -/
theorem mem_trimBytes {l : List Nat} {x : Nat} (hx : x ∈ trimBytes l) : x ∈ l := by
  simp only [trimBytes] at hx
  have h1 := mem_trimLeftBytes hx
  rw [List.mem_reverse] at h1
  have h2 := mem_trimLeftBytes h1
  rwa [List.mem_reverse] at h2

/-- Every byte of a sanitised folder name is an output of the replacer on
some input byte. -/
theorem mem_sanitizeFolderName {bs : List Nat} {x : Nat}
    (hx : x ∈ sanitizeFolderName bs) : ∃ b ∈ bs, x ∈ replaceByte b := by
  simp only [sanitizeFolderName] at hx
  split at hx
  · exact mem_replaceBytes (mem_trimBytes (List.mem_of_mem_take hx))
  · exact mem_replaceBytes (mem_trimBytes hx)

/-- Sanitised output carries no banned byte. -/
theorem sanitizeFolderName_safe (bs : List Nat) :
    noBannedBytes (sanitizeFolderName bs) = true := by
  rw [noBannedBytes, List.all_eq_true]
  intro x hx
  obtain ⟨b, _, hb⟩ := mem_sanitizeFolderName hx
  simpa using replaceByte_safe b x hb

/-- The conversation-kind prefix is safe for every conversation type. -/
theorem convTypePrefix_safe (convType : List Nat) :
    noBannedBytes (convTypePrefix convType) = true := by
  simp only [convTypePrefix]
  split_ifs <;> decide

/-- Digits rendered by natDigitsAux are decimal digit characters. -/
theorem natDigitsAux_digits (fuel : Nat) :
    ∀ (n : Nat) (c : Char), c ∈ natDigitsAux fuel n → 48 ≤ c.toNat ∧ c.toNat ≤ 57 := by
  induction fuel with
  | zero => intro n c hc; simp [natDigitsAux] at hc
  | succ fuel ih =>
    intro n c hc
    simp only [natDigitsAux] at hc
    have hd : ∀ m : Nat, 48 ≤ (digitChar m).toNat ∧ (digitChar m).toNat ≤ 57 := by
      intro m
      unfold digitChar
      split <;> decide
    split at hc
    · rcases List.mem_singleton.mp hc with rfl
      exact hd n
    · rcases List.mem_append.mp hc with h | h
      · exact ih _ _ h
      · rcases List.mem_singleton.mp h with rfl
        exact hd (n % 10)

/-- Every character of a formatted date is a decimal digit or a dash. -/
theorem tsToDate_chars (tz : Int) (ts : String) (c : Char)
    (hc : c ∈ (tsToDate tz ts).data) :
    (48 ≤ c.toNat ∧ c.toNat ≤ 57) ∨ c.toNat = 45 := by
  have hpad2 : ∀ (n : Nat), c ∈ (pad2 n).data → (48 ≤ c.toNat ∧ c.toNat ≤ 57) := by
    intro n h
    simp only [pad2, natString] at h
    split at h
    · simp only [String.data_append] at h
      rcases List.mem_append.mp h with h | h
      · simp at h
        subst h
        decide
      · exact natDigitsAux_digits _ _ _ h
    · exact natDigitsAux_digits _ _ _ h
  have hpad4 : ∀ (y : Int), c ∈ (pad4 y).data → (48 ≤ c.toNat ∧ c.toNat ≤ 57) := by
    intro y h
    simp only [pad4, natString] at h
    split at h
    · simp only [String.data_append] at h
      rcases List.mem_append.mp h with h | h
      · have hrep : c ∈ List.replicate (4 - (natString (y.toNat)).length) '0' := h
        have := List.eq_of_mem_replicate hrep
        subst this
        decide
      · exact natDigitsAux_digits _ _ _ h
    · exact natDigitsAux_digits _ _ _ h
  rcases hy : civilFromDays ((Int.ofNat (tsSeconds ts) + tz).fdiv 86400) with ⟨y, m, d⟩
  simp only [tsToDate, formatYMD, hy, String.data_append] at hc
  rcases List.mem_append.mp hc with h | h
  · rcases List.mem_append.mp h with h | h
    · rcases List.mem_append.mp h with h | h
      · rcases List.mem_append.mp h with h | h
        · exact Or.inl (hpad4 _ h)
        · simp at h; subst h; right; decide
      · exact Or.inl (hpad2 _ h)
    · simp at h; subst h; right; decide
  · exact Or.inl (hpad2 _ h)

/-- Claim C10: for every input byte string, the sanitised folder name, the
conversation folder name, and the thread folder name built in
EnsureThreadFolder contain none of the nine banned characters. -/
theorem claim_C10_names_sanitised (convType name preview : List Nat) (tz : Int)
    (threadTS : String) :
    noBannedBytes (sanitizeFolderName name) = true
      ∧ noBannedBytes (ConversationFolderName convType name) = true
      ∧ noBannedBytes (threadFolderName tz threadTS preview) = true := by
  have hsep : ∀ x : Nat, x ∈ strBytes " - " → x ∉ bannedBytes := by
    intro x hx
    have h : strBytes " - " = [32, 45, 32] := by decide
    rw [h] at hx
    simp only [List.mem_cons, List.not_mem_nil, or_false] at hx
    rcases hx with rfl | rfl | rfl <;> decide
  have hsan : ∀ bs : List Nat, ∀ x ∈ sanitizeFolderName bs, x ∉ bannedBytes := by
    intro bs x hx
    obtain ⟨b, _, hb⟩ := mem_sanitizeFolderName hx
    exact replaceByte_safe b x hb
  have hpre : ∀ x ∈ convTypePrefix convType, x ∉ bannedBytes := by
    have h := convTypePrefix_safe convType
    rw [noBannedBytes, List.all_eq_true] at h
    intro x hx
    simpa using h x hx
  refine ⟨sanitizeFolderName_safe name, ?_, ?_⟩
  · rw [noBannedBytes, List.all_eq_true]
    intro x hx
    simp only [ConversationFolderName, List.mem_append] at hx
    rcases hx with (hx | hx) | hx
    · simpa using hpre x hx
    · simpa using hsep x hx
    · simpa using hsan name x hx
  · rw [noBannedBytes, List.all_eq_true]
    intro x hx
    simp only [threadFolderName, List.mem_append] at hx
    rcases hx with (hx | hx) | hx
    · simp only [strBytes, List.mem_map] at hx
      obtain ⟨c, hc, rfl⟩ := hx
      simp only [decide_eq_true_eq]
      intro hmem
      rcases tsToDate_chars tz threadTS c hc with ⟨h1, h2⟩ | h1 <;>
        · simp only [bannedBytes, List.mem_cons, List.not_mem_nil, or_false] at hmem
          omega
    · simpa using hsep x hx
    · simpa using hsan (truncateBytes preview 40) x hx

/-! ### Order facts about the Go string comparison -/

/-- The lexicographic order is irreflexive. -/
theorem ltChars_irrefl (l : List Char) : ltChars l l = false := by
  induction l with
  | nil => rfl
  | cons c rest ih => simp [ltChars, ih]

/-- The lexicographic order is transitive. -/
theorem ltChars_trans : ∀ {a b c : List Char},
    ltChars a b = true → ltChars b c = true → ltChars a c = true := by
  intro a
  induction a with
  | nil =>
    intro b c h1 h2
    cases b with
    | nil => simp [ltChars] at h1
    | cons y ys =>
      cases c with
      | nil => simp [ltChars] at h2
      | cons z zs => rfl
  | cons x xs ih =>
    intro b c h1 h2
    cases b with
    | nil => simp [ltChars] at h1
    | cons y ys =>
      cases c with
      | nil => simp [ltChars] at h2
      | cons z zs =>
        simp only [ltChars] at h1 h2 ⊢
        split_ifs at h1 h2 ⊢ <;>
          first
            | rfl
            | omega
            | (exact ih h1 h2)

/-- Lists that each fail to be below the other are equal. -/
theorem ltChars_eq_of_not_lt : ∀ {a b : List Char},
    ltChars a b = false → ltChars b a = false → a = b := by
  intro a
  induction a with
  | nil =>
    intro b h1 _
    cases b with
    | nil => rfl
    | cons y ys => simp [ltChars] at h1
  | cons x xs ih =>
    intro b h1 h2
    cases b with
    | nil => simp [ltChars] at h2
    | cons y ys =>
      simp only [ltChars] at h1 h2
      split_ifs at h1 h2 with hxy hyx
      all_goals simp_all [Char.toNat]
      exact ⟨Char.eq_of_val_eq (UInt32.ext (by omega)), ih h1 h2⟩

/-- Totality of the Go string less-or-equal. -/
theorem strLe_total (a b : String) : strLe a b = true ∨ strLe b a = true := by
  simp only [strLe, Bool.not_eq_true', strLt]
  by_cases h1 : ltChars b.data a.data = true
  · by_cases h2 : ltChars a.data b.data = true
    · have := ltChars_trans h1 h2
      rw [ltChars_irrefl] at this
      simp at this
    · exact Or.inr (by simpa using h2)
  · exact Or.inl (by simpa using h1)

/-- Transitivity of the Go string less-or-equal. -/
theorem strLe_trans {a b c : String} (h1 : strLe a b = true) (h2 : strLe b c = true) :
    strLe a c = true := by
  simp only [strLe, Bool.not_eq_true', strLt] at h1 h2 ⊢
  by_contra hca
  have hca : ltChars c.data a.data = true := by simpa using hca
  by_cases hab : ltChars a.data b.data = true
  · have := ltChars_trans hca hab
    rw [h2] at this
    simp at this
  · have hab2 : ltChars a.data b.data = false := by simpa using hab
    have heq : b.data = a.data := ltChars_eq_of_not_lt h1 hab2
    rw [heq] at h2
    rw [h2] at hca
    simp at hca

/-- A weakly smaller, different string is strictly smaller. -/
theorem strLt_of_le_of_ne {a b : String} (hle : strLe a b = true) (hne : a ≠ b) :
    strLt a b = true := by
  simp only [strLe, Bool.not_eq_true', strLt] at hle ⊢
  by_contra hab
  have hab : ltChars a.data b.data = false := by simpa using hab
  exact hne (String.ext (ltChars_eq_of_not_lt hab hle))

/-! ### The batch append realises an in-order append -/

/-- Taking the first two parts of a three-part append. -/
theorem take_two_of_three {α : Type} (A u D : List α) :
    (A ++ u ++ D).take (A.length + u.length) = A ++ u :=
  List.take_left' (by simp)

/-- Dropping the first two parts of a three-part append. -/
theorem drop_two_of_three {α : Type} (A u D : List α) :
    (A ++ u ++ D).drop (A.length + u.length) = D :=
  List.drop_left' (by simp)

/-- Applying the request batch BatchAppendMessages builds inserts the
rendered blocks, in block order, at the requested position: the index
arithmetic of the batch is consistent with sequential application. -/
theorem applyDocReqs_batchAppend (blocks : List MessageBlock) :
    ∀ (doc : List Nat) (i : Nat), i ≤ doc.length →
      applyDocReqs doc (batchAppendRequests i blocks)
        = doc.take i ++ (blocks.map renderBlock).flatten ++ doc.drop i := by
  induction blocks with
  | nil =>
    intro doc i _
    simp [applyDocReqs, batchAppendRequests]
  | cons b rest ih =>
    intro doc i hi
    have hA : (doc.take i).length = i := by
      simp [List.length_take, Nat.min_eq_left hi]
    simp only [batchAppendRequests, applyDocReqs, List.foldl_cons, applyDocReq, utf16Len]
    set Hu := utf16Units (blockHeader b) with hHu
    set Bu := utf16Units (blockBody b) with hBu
    have h1 : (doc.take i ++ Hu ++ doc.drop i).take (i + Hu.length)
        = doc.take i ++ Hu := by
      have := take_two_of_three (doc.take i) Hu (doc.drop i)
      rwa [hA] at this
    have h2 : (doc.take i ++ Hu ++ doc.drop i).drop (i + Hu.length) = doc.drop i := by
      have := drop_two_of_three (doc.take i) Hu (doc.drop i)
      rwa [hA] at this
    rw [h1, h2]
    have hlen3 : i + Hu.length + Bu.length
        ≤ ((doc.take i ++ Hu) ++ Bu ++ doc.drop i).length := by
      simp [hA]
      omega
    have hih := ih ((doc.take i ++ Hu) ++ Bu ++ doc.drop i) (i + Hu.length + Bu.length)
      hlen3
    simp only [applyDocReqs] at hih
    have h3 : ((doc.take i ++ Hu) ++ Bu ++ doc.drop i).take (i + Hu.length + Bu.length)
        = (doc.take i ++ Hu) ++ Bu := by
      have := take_two_of_three (doc.take i ++ Hu) Bu (doc.drop i)
      simp only [List.length_append, hA] at this
      exact this
    have h4 : ((doc.take i ++ Hu) ++ Bu ++ doc.drop i).drop (i + Hu.length + Bu.length)
        = doc.drop i := by
      have := drop_two_of_three (doc.take i ++ Hu) Bu (doc.drop i)
      simp only [List.length_append, hA] at this
      exact this
    rw [hih, h3, h4]
    simp [renderBlock, ← hHu, ← hBu, List.append_assoc]

/-- Claim C8: for every non-empty message list with pairwise-distinct
timestamps, WriteMessages appends the rendered blocks at the end index in
STRICTLY ascending ts order, whatever order the messages were fetched in:
there is an ordering of the input that is strictly ascending in ts, and
the document becomes its old prefix, the blocks rendered in that order,
and its old suffix.  (toBlock stands for messageToBlock, whose mrkdwn
rendering is outside this claim.) -/
theorem claim_C8_write_in_ascending_ts_order (toBlock : Msg → MessageBlock)
    (doc : List Nat) (e : Nat) (msgs : List Msg)
    (he : e ≤ doc.length) (hne : msgs ≠ [])
    (hdist : msgs.Pairwise (fun a b => a.ts ≠ b.ts)) :
    ∃ sorted : List Msg,
      sorted.Perm msgs
        ∧ sorted.Pairwise (fun a b => strLt a.ts b.ts = true)
        ∧ WriteMessages toBlock doc e msgs =
            doc.take e ++ ((((sorted.map toBlock).filter keepBlock).map renderBlock).flatten)
              ++ doc.drop e := by
  classical
  haveI htot : IsTotal Msg (fun a b => strLe a.ts b.ts = true) :=
    ⟨fun a b => strLe_total a.ts b.ts⟩
  haveI htrans : IsTrans Msg (fun a b => strLe a.ts b.ts = true) :=
    ⟨fun _ _ _ h1 h2 => strLe_trans h1 h2⟩
  refine ⟨sortMessages msgs, ?_, ?_, ?_⟩
  · exact List.perm_insertionSort _ msgs
  · have hsorted : (sortMessages msgs).Pairwise (fun a b => strLe a.ts b.ts = true) :=
      List.sorted_insertionSort _ msgs
    have hdist2 : (sortMessages msgs).Pairwise (fun a b => a.ts ≠ b.ts) := by
      have hsymm : ∀ {a b : Msg}, a.ts ≠ b.ts → b.ts ≠ a.ts := fun h => h.symm
      exact ((List.perm_insertionSort _ msgs).pairwise_iff hsymm).mpr hdist
    have hboth := hsorted.and hdist2
    exact hboth.imp (fun hab => strLt_of_le_of_ne hab.1 hab.2)
  · have hmsgs : msgs.isEmpty = false := by
      cases msgs with
      | nil => exact absurd rfl hne
      | cons a l => rfl
    rw [WriteMessages, hmsgs]
    simp only [Bool.false_eq_true, if_false]
    rw [BatchAppendMessages]
    rcases hb : (((sortMessages msgs).map toBlock).filter keepBlock).isEmpty with _ | _
    · simp only [Bool.false_eq_true, if_false]
      exact applyDocReqs_batchAppend _ doc e he
    · have hbe : ((sortMessages msgs).map toBlock).filter keepBlock = [] :=
        List.isEmpty_iff.mp hb
      simp [hbe, List.take_append_drop]

/-- Claim C8, witness: two messages fetched newest-first are written
oldest-first. -/
theorem claim_C8_witness :
    ∃ sorted : List Msg,
      sorted.Perm [scenMsgC, scenMsgA]
        ∧ sorted.Pairwise (fun a b => strLt a.ts b.ts = true)
        ∧ WriteMessages witToBlock [] 0 [scenMsgC, scenMsgA] =
            ([] : List Nat).take 0
              ++ ((((sorted.map witToBlock).filter keepBlock).map renderBlock).flatten)
              ++ ([] : List Nat).drop 0 :=
  claim_C8_write_in_ascending_ts_order witToBlock [] 0 [scenMsgC, scenMsgA]
    (by decide) (by decide) (by decide)

end GetOut
